import Mathlib

/-!
Verification development for the `octopus_spain` Home Assistant integration.

The core under study is `OctopusConsumptionStatisticsImporter._async_process_update`
in `custom_components/octopus_spain/sensor.py`, which turns hourly consumption
samples into a cumulative statistics series, and `OctopusCoordinator._async_update_data`
in `coordinator.py`.

Modelling conventions:
* UTC instants are modelled as integers (`Instant := Int`); only their ordering
  matters to the code.
* Calls into external parsing libraries (`dt_util.parse_datetime`,
  `decimal.Decimal`, `float(...)`) are modelled by their outcome: a raw field is
  represented by the result its parse would produce (success with a value, or
  failure).
* Python `float` values are modelled as rational numbers.  Where the *rounding*
  of binary64 arithmetic itself is the property at stake, a second variant of the
  accumulation loop (`aggregateLoopF`) inserts an explicit binary64
  round-to-nearest-even function `toB64` exactly where Python rounds
  (`float(Decimal(...))` and `running_sum += val`); the plain model
  (`aggregateLoop`) reads the same control flow with exact arithmetic.
-/

set_option allowUnsafeReducibility true
attribute [semireducible] Rat.add Rat.mul Rat.inv Rat.sub

namespace OctopusSpain

/-- UTC instant; only ordering and equality are used by the code. -/
abbrev Instant := Int

/-- Outcome of `_parse_dt(m.get("startAt"))` (sensor.py lines 260-264): either a
UTC instant or `None` (unparseable string). -/
inductive ParseDT where
  | ok (t : Instant)
  | fail
deriving DecidableEq

/-- Outcome of `Decimal(m["value"])` (sensor.py line 297): either the exact
decimal value, or an `InvalidOperation`/`ValueError`/`TypeError`. -/
inductive ParseVal where
  | num (q : ℚ)
  | fail
deriving DecidableEq

/-- One raw hourly sample as consumed by the importer: its `startAt` field and
its `value` field, each represented by its parse outcome. -/
structure RawMeasurement where
  startAt : ParseDT
  value : ParseVal
deriving DecidableEq

/-- The `start` field of the last stored statistics point, by the type cases the
code distinguishes (sensor.py lines 212-223): missing, numeric timestamp,
string (with its parse result), datetime, or any other type. -/
inductive StartRaw where
  | missing
  | numTs (t : Instant)
  | strTs (r : Option Instant)
  | dtTs (t : Instant)
  | other
deriving DecidableEq

/-- A stored `sum`/`state` field of the last statistics point: missing
(`.get` returned `None`), a value `float(...)` accepts, or one it rejects
(sensor.py lines 225-231). -/
inductive StoredVal where
  | missing
  | num (q : ℚ)
  | bad
deriving DecidableEq

/-- The last point returned by `get_last_statistics` (sensor.py line 210). -/
structure StoredPoint where
  start : StartRaw
  sum : StoredVal
  state : StoredVal
deriving DecidableEq

/-- The derived resume checkpoint: `last_start` and `last_sum` of
sensor.py lines 206-248. -/
structure Checkpoint where
  lastStart : Option Instant
  runningSum : ℚ
deriving DecidableEq

/-- Parsing of `last_point.get("start")` (sensor.py lines 212-223): an
int/float timestamp or a datetime always yields an instant, a string yields
its parse result, anything else leaves `last_start = None`. -/
def parseLastStart : StartRaw → Option Instant
  | .numTs t => some t
  | .strTs r => r
  | .dtTs t => some t
  | _ => none

/-- The raw cumulative value the code reads: `last_point.get("sum")`, falling
back to `last_point.get("state")` when `sum` is `None` (sensor.py lines 225-227). -/
def effectiveSumRaw (p : StoredPoint) : StoredVal :=
  match p.sum with
  | .missing => p.state
  | v => v

/-- Evaluation of `float(last_sum_raw or 0.0)` under its `except` clause
(sensor.py lines 228-231): a numeric raw value is kept, everything else
(missing, falsy, unparseable) yields `0`. -/
def parseLastSum (p : StoredPoint) : ℚ :=
  match effectiveSumRaw p with
  | .num q => q
  | _ => 0

/-- Derivation of the checkpoint from the `get_last_statistics` response
(sensor.py lines 206-248): no point means a fresh series; a point lacking both
`sum` and `state` resets to a full re-import (lines 233-239); otherwise
`last_start` and `last_sum` are parsed from the point. -/
def deriveCheckpoint (lastPoints : List StoredPoint) : Checkpoint :=
  match lastPoints.getLast? with
  | none => ⟨none, 0⟩
  | some lp =>
    match lp.sum, lp.state with
    | .missing, .missing => ⟨none, 0⟩
    | _, _ => ⟨parseLastStart lp.start, parseLastSum lp⟩

/-- The parse loop of sensor.py lines 266-274: returns the list of
`(start_utc, m)` pairs in input order together with `skip_unparsed`, the count
of records whose `startAt` did not parse. -/
def parseMeasurements : List RawMeasurement → List (Instant × RawMeasurement) × Nat
  | [] => ([], 0)
  | m :: rest =>
    match m.startAt with
    | .ok t => ((t, m) :: (parseMeasurements rest).1, (parseMeasurements rest).2)
    | .fail => ((parseMeasurements rest).1, (parseMeasurements rest).2 + 1)

/-- Stable insertion of one parsed measurement into a list already sorted by
`start`: the new element goes after strictly smaller keys and before keys that
are greater *or equal*, so earlier-seen records with an equal key stay first. -/
def insertSorted (x : Instant × RawMeasurement) :
    List (Instant × RawMeasurement) → List (Instant × RawMeasurement)
  | [] => [x]
  | y :: ys => if y.1 < x.1 then y :: insertSorted x ys else x :: y :: ys

/-- The stable ascending sort of `sorted(parsed_measurements, key=...)`
(sensor.py line 283), modelled as a stable insertion sort (Python's `sorted`
is a stable ascending sort). -/
def sortMeasurements : List (Instant × RawMeasurement) → List (Instant × RawMeasurement)
  | [] => []
  | x :: xs => insertSorted x (sortMeasurements xs)

/-- One dict appended to the `statistics` batch (sensor.py lines 311-315). -/
structure StatPoint where
  start : Instant
  state : ℚ
  sum : ℚ
deriving DecidableEq

/-- The skip guard of sensor.py line 292:
`last_start is not None and start_utc <= last_start`. -/
def alreadyImported (lastStart : Option Instant) (t : Instant) : Bool :=
  match lastStart with
  | some T => decide (t ≤ T)
  | none => false

/-- Result of the accumulation loop of sensor.py lines 286-315: the prepared
`statistics` batch, the final `running_sum`, and the two skip counters. -/
structure AggResult where
  statistics : List StatPoint
  running_sum : ℚ
  skipped_already_imported : Nat
  skipped_invalid_value : Nat
deriving DecidableEq

/-- The accumulation loop of sensor.py lines 291-315 with exact arithmetic:
skip measurements at or before the checkpoint, skip and count unparseable
values, otherwise add the value to the running sum and append a point whose
`state` and `sum` both carry the new running sum. -/
def aggregateLoop (lastStart : Option Instant) : ℚ → List (Instant × RawMeasurement) → AggResult
  | s, [] => ⟨[], s, 0, 0⟩
  | s, (t, m) :: rest =>
    if alreadyImported lastStart t then
      let r := aggregateLoop lastStart s rest
      ⟨r.statistics, r.running_sum, r.skipped_already_imported + 1, r.skipped_invalid_value⟩
    else
      match m.value with
      | .fail =>
        let r := aggregateLoop lastStart s rest
        ⟨r.statistics, r.running_sum, r.skipped_already_imported, r.skipped_invalid_value + 1⟩
      | .num v =>
        let r := aggregateLoop lastStart (s + v) rest
        ⟨⟨t, s + v, s + v⟩ :: r.statistics, r.running_sum,
          r.skipped_already_imported, r.skipped_invalid_value⟩

/-- Everything one `_async_process_update` pass computes (past the early
return): the batch, the final running sum, the three skip counters, and
whether `async_add_external_statistics` was invoked (sensor.py line 325:
only when the batch is non-empty). -/
structure ImportResult where
  statistics : List StatPoint
  running_sum : ℚ
  skip_unparsed : Nat
  skipped_already_imported : Nat
  skipped_invalid_value : Nat
  didWrite : Bool
deriving DecidableEq

/-- Outcome of one `_async_process_update` pass: the early return of
sensor.py lines 192-194 (no measurements), or the computed result. -/
inductive ProcessOutcome where
  | noData
  | done (r : ImportResult)
deriving DecidableEq

/-- The sorted parsed measurement list one `_async_process_update` pass feeds
to its accumulation loop. -/
def sortedInput (measurements : List RawMeasurement) : List (Instant × RawMeasurement) :=
  sortMeasurements (parseMeasurements measurements).1

/-- The whole of `_async_process_update` (sensor.py lines 181-344) on the
happy path: early-return on an empty fetch, otherwise derive the checkpoint
from the store's last point, parse, sort, accumulate, and write the batch
if and only if it is non-empty. -/
def asyncProcessUpdate (lastPoints : List StoredPoint)
    (measurements : List RawMeasurement) : ProcessOutcome :=
  if measurements.isEmpty then .noData
  else
    let cp := deriveCheckpoint lastPoints
    let r := aggregateLoop cp.lastStart cp.runningSum (sortedInput measurements)
    .done ⟨r.statistics, r.running_sum, (parseMeasurements measurements).2,
      r.skipped_already_imported, r.skipped_invalid_value, !r.statistics.isEmpty⟩

/-- The commit batch of an outcome (empty when the pass returned early). -/
def statsOf : ProcessOutcome → List StatPoint
  | .noData => []
  | .done r => r.statistics

/-- The measurement values that survive both skip guards of the loop, in
order: not at or before the checkpoint, and with a parseable value. -/
def committedVals (lastStart : Option Instant) (ms : List (Instant × RawMeasurement)) : List ℚ :=
  ms.filterMap fun tm =>
    if alreadyImported lastStart tm.1 then none
    else
      match tm.2.value with
      | .num q => some q
      | .fail => none

/-- Partial sums of a value list starting from `s`: the running totals the
loop would commit, one per committed value. -/
def scanSums (s : ℚ) : List ℚ → List ℚ
  | [] => []
  | v :: vs => (s + v) :: scanSums (s + v) vs

/-- Round an integer-scaled mantissa to the nearest integer with ties to even,
the rounding mode of IEEE-754 binary64. -/
def rnEven (q : ℚ) : Int :=
  let f := q.floor
  let r := q - (f : ℚ)
  if r < 1/2 then f
  else if (1 : ℚ)/2 < r then f + 1
  else if f % 2 = 0 then f else f + 1

/-- Scale a positive rational into the interval `[1, 2)`, returning the scaled
value together with the binary exponent (fuel-bounded; 1200 steps covers the
whole binary64 normal range). -/
def normLoop : Nat → ℚ → Int → ℚ × Int
  | 0, q, e => (q, e)
  | fuel + 1, q, e =>
    if 2 ≤ q then normLoop fuel (q / 2) (e + 1)
    else if q < 1 then normLoop fuel (q * 2) (e - 1)
    else (q, e)

/-- The rational `m * 2 ^ e` for an integer mantissa and exponent. -/
def dyadic (m : Int) (e : Int) : ℚ :=
  if 0 ≤ e then (m : ℚ) * ((2 ^ e.toNat : Nat) : ℚ)
  else (m : ℚ) / ((2 ^ (-e).toNat : Nat) : ℚ)

/-- Round a positive rational to the nearest binary64 value (53-bit mantissa,
round half to even), assuming the normal exponent range. -/
def toB64pos (q : ℚ) : ℚ :=
  let p := normLoop 1200 q 0
  dyadic (rnEven (p.1 * 2 ^ 52)) (p.2 - 52)

/-- The value a Python binary64 `float` stores for an exact rational: round to
nearest, ties to even (normal range; subnormal underflow and overflow to
infinity are outside the range this development evaluates).  This models both
the conversion `float(Decimal(...))` and the rounding step of a float
addition `running_sum += val`. -/
def toB64 (q : ℚ) : ℚ :=
  if q = 0 then 0
  else if q < 0 then -toB64pos (-q)
  else toB64pos q

/-- The accumulation loop of sensor.py lines 291-315 with the binary64
rounding of Python `float` arithmetic made explicit: `val = float(Decimal(...))`
rounds the decimal value (`toB64 v`), and `running_sum += val` rounds the sum
(`toB64 (s + toB64 v)`).  Control flow is identical to `aggregateLoop`;
only the committed batch and the final running sum are returned. -/
def aggregateLoopF (lastStart : Option Instant) :
    ℚ → List (Instant × RawMeasurement) → List StatPoint × ℚ
  | s, [] => ([], s)
  | s, (t, m) :: rest =>
    if alreadyImported lastStart t then aggregateLoopF lastStart s rest
    else
      match m.value with
      | .fail => aggregateLoopF lastStart s rest
      | .num v =>
        let s2 := toB64 (s + toB64 v)
        let r := aggregateLoopF lastStart s2 rest
        (⟨t, s2, s2⟩ :: r.1, r.2)

/-- One series' inputs for a refresh cycle, with fault injection at each of the
three suspension points of `_async_process_update`: reading the coordinator's
data (line 184), `get_last_statistics` (line 201), and
`async_add_external_statistics` (lines 332-337).  A `true` flag means that call
raises this cycle. -/
structure SeriesInput where
  dataFault : Bool
  readFault : Bool
  writeFault : Bool
  lastPoints : List StoredPoint
  measurements : List RawMeasurement
deriving DecidableEq

/-- The body of the `try` block of `_async_process_update` (sensor.py lines
183-344): an injected fault raises (`Except.error`) at the corresponding call
site; otherwise the pass computes its outcome.  The store write only happens
(and hence can only fail) when the batch is non-empty. -/
def processBody (inp : SeriesInput) : Except String ProcessOutcome :=
  if inp.dataFault then .error "coordinator data unavailable"
  else if inp.measurements.isEmpty then .ok .noData
  else if inp.readFault then .error "get last statistics failed"
  else
    match asyncProcessUpdate inp.lastPoints inp.measurements with
    | .noData => .ok .noData
    | .done r =>
      if r.didWrite && inp.writeFault then .error "add external statistics failed"
      else .ok (.done r)

/-- The `try`/`except Exception` wrapper of sensor.py lines 183-347: every
error of the body is caught and turned into a logged result (`Sum.inr`), so
the function always returns normally. -/
def guardedProcessUpdate (inp : SeriesInput) : ProcessOutcome ⊕ String :=
  match processBody inp with
  | .ok o => .inl o
  | .error e => .inr e

/-- One refresh cycle over all series: each account's importer runs its own
`_async_process_update` pass on its own inputs (sensor.py lines 56-64 create
one importer per account, each subscribed independently). -/
def runCycle (inputs : List SeriesInput) : List (ProcessOutcome ⊕ String) :=
  inputs.map guardedProcessUpdate

/-- One account's entry in the coordinator data dict: whether the account
response already contained a `hourly_consumption` key, and the list stored
under that key. -/
structure AccountInfo where
  hasHourlyKey : Bool
  hourly : List RawMeasurement

/-- The external API as `_async_update_data` observes it: whether `login()`
returns `True`, the account list, each account's response, and the hourly
consumption fetch for each of the three day windows (today-2 .. today,
coordinator.py lines 38-49). -/
structure ApiModel where
  loginOk : Bool
  accounts : List String
  info : String → AccountInfo
  fetchHourly : String → Nat → List RawMeasurement

/-- The per-account body of the update loop (coordinator.py lines 34-51): if
the account response lacks `hourly_consumption`, fetch the three day windows
and store their concatenation under that key. -/
def buildAccount (api : ApiModel) (a : String) : AccountInfo :=
  let acc := api.info a
  if acc.hasHourlyKey then acc
  else ⟨true, api.fetchHourly a 0 ++ api.fetchHourly a 1 ++ api.fetchHourly a 2⟩

/-- The whole of `OctopusCoordinator._async_update_data` (coordinator.py lines
30-52): on a successful login, rebuild `self._data` from fresh account fetches;
on a failed login, skip everything and return the previously held dict.  The
second component records which accounts were fetched this cycle. -/
def asyncUpdateData (api : ApiModel) (prevData : List (String × AccountInfo)) :
    List (String × AccountInfo) × List String :=
  if api.loginOk then
    (api.accounts.map (fun a => (a, buildAccount api a)), api.accounts)
  else (prevData, [])

/-! ### Helper lemmas about the sort and the parse loop -/

theorem mem_insertSorted {x y : Instant × RawMeasurement}
    {l : List (Instant × RawMeasurement)} :
    y ∈ insertSorted x l ↔ y = x ∨ y ∈ l := by
  induction l with
  | nil => simp [insertSorted]
  | cons z zs ih =>
    simp only [insertSorted]
    split
    · simp only [List.mem_cons, ih]
      tauto
    · simp only [List.mem_cons]

theorem mem_sortMeasurements {y : Instant × RawMeasurement}
    {l : List (Instant × RawMeasurement)} :
    y ∈ sortMeasurements l ↔ y ∈ l := by
  induction l with
  | nil => simp [sortMeasurements]
  | cons x xs ih => simp [sortMeasurements, mem_insertSorted, ih]

theorem pairwise_insertSorted {x : Instant × RawMeasurement}
    {l : List (Instant × RawMeasurement)}
    (h : l.Pairwise (fun a b => a.1 ≤ b.1)) :
    (insertSorted x l).Pairwise (fun a b => a.1 ≤ b.1) := by
  induction l with
  | nil => simp [insertSorted]
  | cons z zs ih =>
    rw [List.pairwise_cons] at h
    simp only [insertSorted]
    split
    · rename_i hz
      refine List.pairwise_cons.mpr ⟨?_, ih h.2⟩
      intro b hb
      rcases mem_insertSorted.mp hb with rfl | hb
      · exact le_of_lt hz
      · exact h.1 b hb
    · rename_i hz
      have hxz : x.1 ≤ z.1 := le_of_not_lt hz
      refine List.pairwise_cons.mpr ⟨?_, List.pairwise_cons.mpr h⟩
      intro b hb
      rcases List.mem_cons.mp hb with rfl | hb
      · exact hxz
      · exact le_trans hxz (h.1 b hb)

theorem sorted_sortMeasurements (l : List (Instant × RawMeasurement)) :
    (sortMeasurements l).Pairwise (fun a b => a.1 ≤ b.1) := by
  induction l with
  | nil => simp [sortMeasurements]
  | cons x xs ih => exact pairwise_insertSorted ih

theorem length_insertSorted (x : Instant × RawMeasurement)
    (l : List (Instant × RawMeasurement)) :
    (insertSorted x l).length = l.length + 1 := by
  induction l with
  | nil => rfl
  | cons z zs ih =>
    simp only [insertSorted]
    split
    · simp [ih]
    · simp

theorem length_sortMeasurements (l : List (Instant × RawMeasurement)) :
    (sortMeasurements l).length = l.length := by
  induction l with
  | nil => rfl
  | cons x xs ih => simp [sortMeasurements, length_insertSorted, ih]

theorem parseMeasurements_mem {t : Instant} {m : RawMeasurement}
    {ms : List RawMeasurement} (h : (t, m) ∈ (parseMeasurements ms).1) : m ∈ ms := by
  induction ms with
  | nil => simp [parseMeasurements] at h
  | cons x xs ih =>
    rw [parseMeasurements] at h
    cases hx : x.startAt with
    | ok u =>
      rw [hx] at h
      rcases List.mem_cons.mp h with h1 | h1
      · rw [Prod.mk.injEq] at h1
        rw [h1.2]
        exact List.mem_cons_self _ _
      · exact List.mem_cons_of_mem _ (ih h1)
    | fail =>
      rw [hx] at h
      exact List.mem_cons_of_mem _ (ih h)

theorem parseMeasurements_length (ms : List RawMeasurement) :
    (parseMeasurements ms).1.length + (parseMeasurements ms).2 = ms.length := by
  induction ms with
  | nil => rfl
  | cons x xs ih =>
    rw [parseMeasurements]
    cases hx : x.startAt with
    | ok u => simp only [List.length_cons, ← ih]; omega
    | fail => simp only [List.length_cons, ← ih]; omega

theorem parseMeasurements_count (ms : List RawMeasurement) :
    (parseMeasurements ms).2 = ms.countP (fun m => decide (m.startAt = ParseDT.fail)) := by
  induction ms with
  | nil => rfl
  | cons x xs ih =>
    rw [parseMeasurements, List.countP_cons]
    cases hx : x.startAt with
    | ok u => simp [hx, ih]
    | fail => simp [hx, ih]

/-! ### Helper lemmas about the accumulation loop -/

theorem aggregateLoop_partition (lastStart : Option Instant) (s : ℚ)
    (ms : List (Instant × RawMeasurement)) :
    (aggregateLoop lastStart s ms).statistics.length +
      (aggregateLoop lastStart s ms).skipped_already_imported +
      (aggregateLoop lastStart s ms).skipped_invalid_value = ms.length := by
  induction ms generalizing s with
  | nil => rfl
  | cons tm rest ih =>
    obtain ⟨t, m⟩ := tm
    rw [aggregateLoop]
    by_cases hski : alreadyImported lastStart t = true
    · have := ih s
      simp only [hski, if_true, List.length_cons]
      omega
    · cases hm : m.value with
      | fail =>
        have := ih s
        simp only [hski, hm, Bool.false_eq_true, ↓reduceIte, List.length_cons]
        omega
      | num v =>
        have := ih (s + v)
        simp only [hski, hm, Bool.false_eq_true, ↓reduceIte, List.length_cons,
          List.length_cons]
        omega

theorem aggregateLoop_starts_sublist (lastStart : Option Instant) (s : ℚ)
    (ms : List (Instant × RawMeasurement)) :
    List.Sublist ((aggregateLoop lastStart s ms).statistics.map StatPoint.start)
      (ms.map Prod.fst) := by
  induction ms generalizing s with
  | nil => simp [aggregateLoop]
  | cons tm rest ih =>
    obtain ⟨t, m⟩ := tm
    rw [aggregateLoop]
    by_cases hski : alreadyImported lastStart t = true
    · simp only [hski, if_true, List.map_cons]
      exact (ih s).cons t
    · cases hm : m.value with
      | fail =>
        simp only [hski, if_false, hm, List.map_cons]
        exact (ih s).cons t
      | num v =>
        simp only [hski, if_false, hm, List.map_cons]
        exact (ih (s + v)).cons₂ t

theorem aggregateLoop_mono (lastStart : Option Instant) (s : ℚ)
    (ms : List (Instant × RawMeasurement))
    (h : ∀ t m q, (t, m) ∈ ms → m.value = ParseVal.num q → 0 ≤ q) :
    ((aggregateLoop lastStart s ms).statistics.map StatPoint.sum).Pairwise (· ≤ ·) ∧
      s ≤ (aggregateLoop lastStart s ms).running_sum ∧
      ∀ p ∈ (aggregateLoop lastStart s ms).statistics, s ≤ p.sum := by
  induction ms generalizing s with
  | nil => simp [aggregateLoop]
  | cons tm rest ih =>
    obtain ⟨t, m⟩ := tm
    have hrest : ∀ t m q, (t, m) ∈ rest → m.value = ParseVal.num q → 0 ≤ q :=
      fun t1 m1 q1 hm1 hv1 => h t1 m1 q1 (List.mem_cons_of_mem _ hm1) hv1
    rw [aggregateLoop]
    by_cases hski : alreadyImported lastStart t = true
    · simpa only [hski, if_true] using ih s hrest
    · cases hm : m.value with
      | fail => simpa only [hski, if_false, hm] using ih s hrest
      | num v =>
        have hv : 0 ≤ v := h t m v (List.mem_cons_self _ _) hm
        have hsv : s ≤ s + v := le_add_of_nonneg_right hv
        obtain ⟨ih1, ih2, ih3⟩ := ih (s + v) hrest
        simp only [hski, if_false, hm, List.map_cons]
        refine ⟨List.pairwise_cons.mpr ⟨?_, ih1⟩, le_trans hsv ih2, ?_⟩
        · intro b hb
          obtain ⟨p, hp, rfl⟩ := List.mem_map.mp hb
          exact ih3 p hp
        · intro p hp
          rcases List.mem_cons.mp hp with rfl | hp
          · exact hsv
          · exact le_trans hsv (ih3 p hp)

theorem committedVals_cons (lastStart : Option Instant) (t : Instant) (m : RawMeasurement)
    (rest : List (Instant × RawMeasurement)) :
    committedVals lastStart ((t, m) :: rest) =
      if alreadyImported lastStart t then committedVals lastStart rest
      else
        match m.value with
        | .num q => q :: committedVals lastStart rest
        | .fail => committedVals lastStart rest := by
  simp only [committedVals, List.filterMap_cons]
  by_cases h : alreadyImported lastStart t = true
  · simp [h]
  · cases hm : m.value <;> simp [h, hm]

theorem aggregateLoop_scan (lastStart : Option Instant) (s : ℚ)
    (ms : List (Instant × RawMeasurement)) :
    (aggregateLoop lastStart s ms).statistics.map (fun p => (p.state, p.sum)) =
      (scanSums s (committedVals lastStart ms)).map (fun x => (x, x)) := by
  induction ms generalizing s with
  | nil => rfl
  | cons tm rest ih =>
    obtain ⟨t, m⟩ := tm
    rw [aggregateLoop, committedVals_cons]
    by_cases hski : alreadyImported lastStart t = true
    · simp only [hski, ↓reduceIte]
      exact ih s
    · cases hm : m.value with
      | fail =>
        simp only [hski, hm, Bool.false_eq_true, ↓reduceIte]
        exact ih s
      | num v =>
        simp only [hski, hm, Bool.false_eq_true, ↓reduceIte, List.map_cons, scanSums]
        exact congrArg (List.cons _) (ih (s + v))

theorem aggregateLoop_all_skipped (lastStart : Option Instant) (s : ℚ)
    (ms : List (Instant × RawMeasurement))
    (h : ∀ x ∈ ms, alreadyImported lastStart x.1 = true) :
    aggregateLoop lastStart s ms = ⟨[], s, ms.length, 0⟩ := by
  induction ms with
  | nil => rfl
  | cons y rest ih =>
    obtain ⟨t, m⟩ := y
    have ht := h (t, m) (List.mem_cons_self _ _)
    rw [aggregateLoop]
    simp [ht, ih (fun x hx => h x (List.mem_cons_of_mem _ hx))]

theorem aggregateLoop_skip_mem (T : Instant) (s : ℚ)
    (pre post : List (Instant × RawMeasurement)) (t : Instant) (m : RawMeasurement)
    (ht : t ≤ T) :
    aggregateLoop (some T) s (pre ++ (t, m) :: post) =
      { aggregateLoop (some T) s (pre ++ post) with
        skipped_already_imported :=
          (aggregateLoop (some T) s (pre ++ post)).skipped_already_imported + 1 } := by
  induction pre generalizing s with
  | nil =>
    simp only [List.nil_append]
    rw [aggregateLoop]
    simp [alreadyImported, decide_eq_true ht]
  | cons y pre ih =>
    obtain ⟨u, my⟩ := y
    simp only [List.cons_append]
    rw [aggregateLoop, aggregateLoop]
    by_cases hski : alreadyImported (some T) u = true
    · simp [hski, ih s]
    · cases hm : my.value with
      | fail => simp [hski, hm, ih s]
      | num v => simp [hski, hm, ih (s + v)]

theorem aggregateLoop_first_commit (T : Instant) (s v : ℚ)
    (pre post : List (Instant × RawMeasurement)) (t : Instant) (m : RawMeasurement)
    (hpre : ∀ x ∈ pre, x.1 ≤ T) (ht : T < t) (hm : m.value = ParseVal.num v) :
    (aggregateLoop (some T) s (pre ++ (t, m) :: post)).statistics =
      ⟨t, s + v, s + v⟩ :: (aggregateLoop (some T) (s + v) post).statistics := by
  induction pre with
  | nil =>
    simp only [List.nil_append]
    rw [aggregateLoop]
    simp [alreadyImported, decide_eq_false (not_le.mpr ht), hm]
  | cons y pre ih =>
    have hy : y.1 ≤ T := hpre y (List.mem_cons_self _ _)
    simp only [List.cons_append]
    rw [aggregateLoop]
    simp [alreadyImported, decide_eq_true hy,
      ih (fun x hx => hpre x (List.mem_cons_of_mem _ hx))]

/-- Claim C3 (amended): the running cumulative sum is carried and accumulated
in binary64 floating-point arithmetic, not full-precision decimal; the
committed cumulative values equal the step-wise correctly-rounded binary64
sums, which coincide with the exact decimal sums precisely when every
measurement value and every intermediate running total is exactly
representable in binary64 — here stated as: under those representability
hypotheses the float-accurate loop agrees with the exact-arithmetic loop. -/
theorem claim_C3 (lastStart : Option Instant) (s : ℚ)
    (ms : List (Instant × RawMeasurement))
    (hv : ∀ t m q, (t, m) ∈ ms → m.value = ParseVal.num q → toB64 q = q)
    (hs : ∀ x ∈ (aggregateLoop lastStart s ms).statistics.map StatPoint.sum, toB64 x = x) :
    aggregateLoopF lastStart s ms =
      ((aggregateLoop lastStart s ms).statistics,
        (aggregateLoop lastStart s ms).running_sum) := by
  induction ms generalizing s with
  | nil => rfl
  | cons tm rest ih =>
    obtain ⟨t, m⟩ := tm
    have hvrest : ∀ t m q, (t, m) ∈ rest → m.value = ParseVal.num q → toB64 q = q :=
      fun t1 m1 q1 hm1 hv1 => hv t1 m1 q1 (List.mem_cons_of_mem _ hm1) hv1
    rw [aggregateLoop, aggregateLoopF]
    by_cases hski : alreadyImported lastStart t = true
    · simp only [hski, if_true]
      apply ih s hvrest
      intro x hx
      apply hs
      rw [aggregateLoop]
      simpa only [hski, if_true] using hx
    · cases hm : m.value with
      | fail =>
        simp only [hski, if_false, hm]
        apply ih s hvrest
        intro x hx
        apply hs
        rw [aggregateLoop]
        simpa only [hski, if_false, hm] using hx
      | num v =>
        have hv0 : toB64 v = v := hv t m v (List.mem_cons_self _ _) hm
        have hsum : toB64 (s + v) = s + v := by
          apply hs
          rw [aggregateLoop]
          simp only [hski, if_false, hm, List.map_cons]
          exact List.mem_cons_self _ _
        have hstep : toB64 (s + toB64 v) = s + v := by rw [hv0, hsum]
        simp only [hski, if_false, hm, hstep]
        have ihr := ih (s + v) hvrest (by
          intro x hx
          apply hs
          rw [aggregateLoop]
          simp only [hski, if_false, hm, List.map_cons]
          exact List.mem_cons_of_mem _ hx)
        simp [ihr]

/-! ### The claims -/

/-- Claim C1: for every checkpoint with `lastStart = T` and every measurement
sequence, the aggregation loop skips (contributes nothing to the output batch
or the running sum) every measurement whose start is `≤ T`, including one whose
start equals `T` exactly; and a measurement with start strictly greater than
`T` and parsed value `v` that is the first non-skipped measurement produces
exactly one output point whose cumulative value is the checkpoint's running
sum plus `v`. -/
theorem claim_C1 :
    (∀ (T : Instant) (s : ℚ) (pre post : List (Instant × RawMeasurement))
        (t : Instant) (m : RawMeasurement), t ≤ T →
      (aggregateLoop (some T) s (pre ++ (t, m) :: post)).statistics =
          (aggregateLoop (some T) s (pre ++ post)).statistics ∧
        (aggregateLoop (some T) s (pre ++ (t, m) :: post)).running_sum =
          (aggregateLoop (some T) s (pre ++ post)).running_sum) ∧
    (∀ (T : Instant) (s v : ℚ) (pre post : List (Instant × RawMeasurement))
        (t : Instant) (m : RawMeasurement),
      (∀ x ∈ pre, x.1 ≤ T) → T < t → m.value = ParseVal.num v →
      (aggregateLoop (some T) s (pre ++ (t, m) :: post)).statistics =
        ⟨t, s + v, s + v⟩ :: (aggregateLoop (some T) (s + v) post).statistics) := by
  constructor
  · intro T s pre post t m ht
    rw [aggregateLoop_skip_mem T s pre post t m ht]
    exact ⟨rfl, rfl⟩
  · intro T s v pre post t m hpre ht hm
    exact aggregateLoop_first_commit T s v pre post t m hpre ht hm

/-- Witness for C1 at a concrete input, with the skipped measurement's start
equal to the checkpoint's `lastStart` exactly. -/
theorem claim_C1_witness :
    ((aggregateLoop (some 10) 5 [((10 : Instant), ⟨ParseDT.ok 10, ParseVal.num 3⟩)]).statistics =
        (aggregateLoop (some 10) 5 ([] : List (Instant × RawMeasurement))).statistics ∧
      (aggregateLoop (some 10) 5 [((10 : Instant), ⟨ParseDT.ok 10, ParseVal.num 3⟩)]).running_sum =
        (aggregateLoop (some 10) 5 ([] : List (Instant × RawMeasurement))).running_sum) ∧
    (aggregateLoop (some 10) 5 [((10 : Instant), ⟨ParseDT.ok 10, ParseVal.num 3⟩),
        ((11 : Instant), ⟨ParseDT.ok 11, ParseVal.num 2⟩)]).statistics =
      ⟨11, 5 + 2, 5 + 2⟩ ::
        (aggregateLoop (some 10) (5 + 2) ([] : List (Instant × RawMeasurement))).statistics :=
  ⟨claim_C1.1 10 5 [] [] 10 ⟨ParseDT.ok 10, ParseVal.num 3⟩ (le_refl 10),
   claim_C1.2 10 5 2 [((10 : Instant), ⟨ParseDT.ok 10, ParseVal.num 3⟩)] [] 11
     ⟨ParseDT.ok 11, ParseVal.num 2⟩ (by decide) (by decide) rfl⟩

/-- Counterexample to claim C2 as stated: with an unvalidated negative decimal
value (which `float(Decimal(...))` accepts), the final committed cumulative
value drops strictly below the checkpoint's running sum, so "the final
cumulative value is `>=` the checkpoint's runningSum" fails for this input. -/
theorem claim_C2_counterexample :
    asyncProcessUpdate [] [⟨ParseDT.ok 0, ParseVal.num (-1)⟩] =
        ProcessOutcome.done ⟨[⟨0, -1, -1⟩], -1, 0, 0, 0, true⟩ ∧
      (deriveCheckpoint []).runningSum = 0 ∧
      ¬ ((0 : ℚ) ≤ -1) := by
  refine ⟨by decide, by decide, by norm_num⟩

/-- Claim C2 (amended): provided every parseable measurement value is
non-negative (the expected consumption domain — the code itself never
validates this), the commit list's cumulative values are non-decreasing in
batch order and the final running sum is at least the checkpoint's running
sum. -/
theorem claim_C2 (lastPoints : List StoredPoint) (ms : List RawMeasurement)
    (r : ImportResult) (h : asyncProcessUpdate lastPoints ms = ProcessOutcome.done r)
    (hnn : ∀ m ∈ ms, ∀ q, m.value = ParseVal.num q → 0 ≤ q) :
    (r.statistics.map StatPoint.sum).Pairwise (· ≤ ·) ∧
      (deriveCheckpoint lastPoints).runningSum ≤ r.running_sum := by
  by_cases hms : ms.isEmpty = true
  · rw [asyncProcessUpdate, if_pos hms] at h
    exact ProcessOutcome.noConfusion h
  · rw [asyncProcessUpdate, if_neg hms] at h
    injection h with h2
    subst h2
    have hnn2 : ∀ t m q, (t, m) ∈ sortedInput ms → m.value = ParseVal.num q → 0 ≤ q := by
      intro t m q hmem hv
      exact hnn m (parseMeasurements_mem (mem_sortMeasurements.mp hmem)) q hv
    obtain ⟨h1, h2, _⟩ := aggregateLoop_mono (deriveCheckpoint lastPoints).lastStart
      (deriveCheckpoint lastPoints).runningSum (sortedInput ms) hnn2
    exact ⟨h1, h2⟩

/-- Witness for the amended C2 at a concrete input. -/
theorem claim_C2_witness :
    (([⟨0, 2, 2⟩, ⟨1, 3, 3⟩] : List StatPoint).map StatPoint.sum).Pairwise (· ≤ ·) ∧
      (deriveCheckpoint []).runningSum ≤ (3 : ℚ) :=
  claim_C2 [] [⟨ParseDT.ok 0, ParseVal.num 2⟩, ⟨ParseDT.ok 1, ParseVal.num 1⟩]
    ⟨[⟨0, 2, 2⟩, ⟨1, 3, 3⟩], 3, 0, 0, 0, true⟩ (by decide)
    (by
      intro m hm q hq
      fin_cases hm <;> simp_all <;> norm_num [← hq])

/-- Counterexample to claim C3 as stated: starting from running sum `0` with
the decimal values `0.1` and `0.2`, the float-accurate accumulation commits
cumulative values different from the exact decimal sums `[0.1, 0.3]` — the
second committed value is the binary64 value `0.30000000000000004...`. -/
theorem claim_C3_counterexample :
    (aggregateLoopF none 0 [((0 : Instant), ⟨ParseDT.ok 0, ParseVal.num (1/10)⟩),
        ((1 : Instant), ⟨ParseDT.ok 1, ParseVal.num (1/5)⟩)]).1.map StatPoint.sum ≠
        scanSums 0 [1/10, 1/5] ∧
      (aggregateLoopF none 0 [((0 : Instant), ⟨ParseDT.ok 0, ParseVal.num (1/10)⟩),
        ((1 : Instant), ⟨ParseDT.ok 1, ParseVal.num (1/5)⟩)]).1.map StatPoint.sum =
        [3602879701896397 / 36028797018963968, 1351079888211149 / 4503599627370496] := by
  refine ⟨by decide, by decide⟩

/-- Witness for the amended C3 at a concrete input whose value and partial sum
are exactly representable in binary64. -/
theorem claim_C3_witness :
    aggregateLoopF none 0 [((0 : Instant), ⟨ParseDT.ok 0, ParseVal.num 2⟩)] =
      ((aggregateLoop none 0 [((0 : Instant), ⟨ParseDT.ok 0, ParseVal.num 2⟩)]).statistics,
        (aggregateLoop none 0 [((0 : Instant), ⟨ParseDT.ok 0, ParseVal.num 2⟩)]).running_sum) :=
  claim_C3 none 0 _
    (by
      intro t m q hmem hv
      rw [List.mem_singleton, Prod.mk.injEq] at hmem
      rw [hmem.2] at hv
      injection hv with hq
      rw [← hq]
      decide)
    (by decide)

/-- Counterexample to claim C4 as stated: two records sharing the same start
are both kept (no last-write-wins deduplication exists in the code), both
contribute to the running sum, and the resulting batch has two points with
equal starts, so its starts are not strictly increasing. -/
theorem claim_C4_counterexample :
    (statsOf (asyncProcessUpdate []
        [⟨ParseDT.ok 10, ParseVal.num 1⟩, ⟨ParseDT.ok 10, ParseVal.num 2⟩])).map
        StatPoint.start = [10, 10] ∧
      (statsOf (asyncProcessUpdate []
        [⟨ParseDT.ok 10, ParseVal.num 1⟩, ⟨ParseDT.ok 10, ParseVal.num 2⟩])).map
        StatPoint.sum = [1, 3] ∧
      ¬ ((statsOf (asyncProcessUpdate []
        [⟨ParseDT.ok 10, ParseVal.num 1⟩, ⟨ParseDT.ok 10, ParseVal.num 2⟩])).map
        StatPoint.start).Pairwise (· < ·) := by
  refine ⟨by decide, by decide, by decide⟩

/-- Claim C4 (amended): the importer performs no deduplication by start;
records sharing a start each contribute a point (in stable input order), so
within one commit batch the start values are non-decreasing, though not
necessarily strictly increasing. -/
theorem claim_C4 (lastPoints : List StoredPoint) (ms : List RawMeasurement) :
    ((statsOf (asyncProcessUpdate lastPoints ms)).map StatPoint.start).Pairwise (· ≤ ·) := by
  by_cases hms : ms.isEmpty = true
  · rw [asyncProcessUpdate, if_pos hms]
    simp [statsOf]
  · rw [asyncProcessUpdate, if_neg hms]
    rw [statsOf]
    have hsub := aggregateLoop_starts_sublist (deriveCheckpoint lastPoints).lastStart
      (deriveCheckpoint lastPoints).runningSum (sortedInput ms)
    have hsorted : ((sortedInput ms).map Prod.fst).Pairwise (· ≤ ·) :=
      List.pairwise_map.mpr (sorted_sortMeasurements (parseMeasurements ms).1)
    exact List.Pairwise.sublist hsub hsorted

theorem parseLastSum_eq_zero (lp : StoredPoint)
    (h : ∀ q, effectiveSumRaw lp ≠ StoredVal.num q) : parseLastSum lp = 0 := by
  rw [parseLastSum]
  cases he : effectiveSumRaw lp with
  | missing => rfl
  | num q => exact absurd he (h q)
  | bad => rfl

/-- Claim C5: when the store's last point exists but its stored cumulative
value is absent or unparseable, the checkpoint is derived with
`runningSum = 0`, and `lastStart` can only be a resume cursor that a valid
timestamp produced; in particular when the last point lacks both its `sum`
and `state` fields, the checkpoint resets to `lastStart = none`,
`runningSum = 0` (full re-import for that series that cycle). -/
theorem claim_C5 (pts : List StoredPoint) (lp : StoredPoint)
    (hlast : pts.getLast? = some lp) :
    ((∀ q, effectiveSumRaw lp ≠ StoredVal.num q) →
        (deriveCheckpoint pts).runningSum = 0) ∧
      (∀ t, (deriveCheckpoint pts).lastStart = some t →
        parseLastStart lp.start = some t) ∧
      (lp.sum = StoredVal.missing ∧ lp.state = StoredVal.missing →
        deriveCheckpoint pts = ⟨none, 0⟩) := by
  have hd : deriveCheckpoint pts =
      (match lp.sum, lp.state with
       | StoredVal.missing, StoredVal.missing => (⟨none, 0⟩ : Checkpoint)
       | _, _ => ⟨parseLastStart lp.start, parseLastSum lp⟩) := by
    rw [deriveCheckpoint, hlast]
  refine ⟨?_, ?_, ?_⟩
  · intro habs
    have h0 := parseLastSum_eq_zero lp habs
    rw [hd]
    cases hsum : lp.sum <;> cases hstate : lp.state <;> simp [h0]
  · intro t hlt
    rw [hd] at hlt
    cases hsum : lp.sum <;> cases hstate : lp.state <;>
      simp only [hsum, hstate] at hlt <;> first | exact hlt | cases hlt
  · rintro ⟨h1, h2⟩
    rw [hd, h1, h2]

/-- Witness for C5 at two concrete last points: one with an unparseable `sum`
but a valid numeric timestamp (running sum resets to 0, the cursor is kept),
and one lacking both `sum` and `state` (full reset). -/
theorem claim_C5_witness :
    ((deriveCheckpoint [⟨StartRaw.numTs 7, StoredVal.bad, StoredVal.missing⟩]).runningSum = 0 ∧
      parseLastStart (StartRaw.numTs 7) = some 7) ∧
      deriveCheckpoint [⟨StartRaw.numTs 7, StoredVal.missing, StoredVal.missing⟩] =
        ⟨none, 0⟩ :=
  ⟨⟨(claim_C5 [⟨StartRaw.numTs 7, StoredVal.bad, StoredVal.missing⟩]
        ⟨StartRaw.numTs 7, StoredVal.bad, StoredVal.missing⟩ rfl).1
        (fun q h => StoredVal.noConfusion h),
    (claim_C5 [⟨StartRaw.numTs 7, StoredVal.bad, StoredVal.missing⟩]
        ⟨StartRaw.numTs 7, StoredVal.bad, StoredVal.missing⟩ rfl).2.1 7 (by decide)⟩,
   (claim_C5 [⟨StartRaw.numTs 7, StoredVal.missing, StoredVal.missing⟩]
        ⟨StartRaw.numTs 7, StoredVal.missing, StoredVal.missing⟩ rfl).2.2 ⟨rfl, rfl⟩⟩

/-- Claim C6: records whose start or value fails to parse are dropped and
counted, and processing continues: the batch size plus all three drop
counters always partitions the input, and the start-parse drop counter is
exactly the number of records with an unparseable start.  (The concrete
five-measurement instance with one bad value appears in the witness.) -/
theorem claim_C6 (lastPoints : List StoredPoint) (ms : List RawMeasurement)
    (r : ImportResult) (h : asyncProcessUpdate lastPoints ms = ProcessOutcome.done r) :
    r.statistics.length + r.skipped_already_imported + r.skipped_invalid_value +
        r.skip_unparsed = ms.length ∧
      r.skip_unparsed = ms.countP (fun m => decide (m.startAt = ParseDT.fail)) := by
  by_cases hms : ms.isEmpty = true
  · rw [asyncProcessUpdate, if_pos hms] at h
    exact ProcessOutcome.noConfusion h
  · rw [asyncProcessUpdate, if_neg hms] at h
    injection h with h2
    subst h2
    refine ⟨?_, parseMeasurements_count ms⟩
    have hpart := aggregateLoop_partition (deriveCheckpoint lastPoints).lastStart
      (deriveCheckpoint lastPoints).runningSum (sortedInput ms)
    have hlen : (sortedInput ms).length = (parseMeasurements ms).1.length :=
      length_sortMeasurements (parseMeasurements ms).1
    have hplen := parseMeasurements_length ms
    simp only [] at hpart ⊢
    omega

/-- Witness for C6: a batch of five measurements of which exactly one has an
unparseable value yields exactly four committed points plus one recorded
value drop (and the counters partition the batch of five). -/
theorem claim_C6_witness :
    ([⟨0, 1, 1⟩, ⟨1, 2, 2⟩, ⟨3, 3, 3⟩, ⟨4, 4, 4⟩] : List StatPoint).length + 0 + 1 + 0 =
        ([⟨ParseDT.ok 0, ParseVal.num 1⟩, ⟨ParseDT.ok 1, ParseVal.num 1⟩,
          ⟨ParseDT.ok 2, ParseVal.fail⟩, ⟨ParseDT.ok 3, ParseVal.num 1⟩,
          ⟨ParseDT.ok 4, ParseVal.num 1⟩] : List RawMeasurement).length ∧
      0 = ([⟨ParseDT.ok 0, ParseVal.num 1⟩, ⟨ParseDT.ok 1, ParseVal.num 1⟩,
          ⟨ParseDT.ok 2, ParseVal.fail⟩, ⟨ParseDT.ok 3, ParseVal.num 1⟩,
          ⟨ParseDT.ok 4, ParseVal.num 1⟩] : List RawMeasurement).countP
          (fun m => decide (m.startAt = ParseDT.fail)) :=
  claim_C6 []
    [⟨ParseDT.ok 0, ParseVal.num 1⟩, ⟨ParseDT.ok 1, ParseVal.num 1⟩,
      ⟨ParseDT.ok 2, ParseVal.fail⟩, ⟨ParseDT.ok 3, ParseVal.num 1⟩,
      ⟨ParseDT.ok 4, ParseVal.num 1⟩]
    ⟨[⟨0, 1, 1⟩, ⟨1, 2, 2⟩, ⟨3, 3, 3⟩, ⟨4, 4, 4⟩], 4, 0, 0, 1, true⟩ (by decide)

/-- Claim C7: when every parsed measurement starts at or before the
checkpoint's `lastStart = T`, the commit list is empty, no store write is
performed (`didWrite = false`), and the cycle's final running sum is exactly
the checkpoint's running sum rather than zero. -/
theorem claim_C7 (lastPoints : List StoredPoint) (ms : List RawMeasurement)
    (T : Instant) (S : ℚ)
    (hcp : deriveCheckpoint lastPoints = ⟨some T, S⟩)
    (hms : ms.isEmpty = false)
    (hall : ∀ p ∈ (parseMeasurements ms).1, p.1 ≤ T) :
    asyncProcessUpdate lastPoints ms =
      ProcessOutcome.done
        ⟨[], S, (parseMeasurements ms).2, (parseMeasurements ms).1.length, 0, false⟩ := by
  have hskip : ∀ x ∈ sortedInput ms, alreadyImported (some T) x.1 = true := by
    intro x hx
    exact decide_eq_true (hall x (mem_sortMeasurements.mp hx))
  rw [asyncProcessUpdate, if_neg (by rw [hms]; exact Bool.false_ne_true), hcp]
  dsimp only
  rw [aggregateLoop_all_skipped (some T) S (sortedInput ms) hskip]
  simp [sortedInput, length_sortMeasurements]

/-- Witness for C7: checkpoint `{lastStart: 5, runningSum: 100}` and two
measurements at starts 3 and 5 (both at or before the cursor) produce an
empty batch, no write, and a running sum still equal to 100. -/
theorem claim_C7_witness :
    asyncProcessUpdate [⟨StartRaw.numTs 5, StoredVal.num 100, StoredVal.num 100⟩]
        [⟨ParseDT.ok 3, ParseVal.num 7⟩, ⟨ParseDT.ok 5, ParseVal.num 2⟩] =
      ProcessOutcome.done ⟨[], 100, 0, 2, 0, false⟩ :=
  claim_C7 [⟨StartRaw.numTs 5, StoredVal.num 100, StoredVal.num 100⟩]
    [⟨ParseDT.ok 3, ParseVal.num 7⟩, ⟨ParseDT.ok 5, ParseVal.num 2⟩] 5 100
    (by decide) rfl (by decide)

/-- Claim C8: a failure anywhere in one series' import pass is caught inside
that pass (every error raised by the body becomes a logged result, never an
escaping exception), each series' result in a cycle depends only on that
series' own inputs, and injecting a fault into one series leaves every other
series' result in the same cycle unchanged. -/
theorem claim_C8 (inputs : List SeriesInput) (i j : Nat) (inp2 : SeriesInput)
    (_hj : j < inputs.length) (hne : j ≠ i) :
    (runCycle inputs).length = inputs.length ∧
      (∀ k : Nat, (runCycle inputs)[k]? = (inputs[k]?).map guardedProcessUpdate) ∧
      (runCycle (inputs.set i inp2))[j]? = (runCycle inputs)[j]? ∧
      (∀ inp : SeriesInput, ∀ e, processBody inp = Except.error e →
        guardedProcessUpdate inp = Sum.inr e) := by
  refine ⟨by simp [runCycle], ?_, ?_, ?_⟩
  · intro k
    simp [runCycle, List.getElem?_map]
  · rw [runCycle, runCycle, List.getElem?_map, List.getElem?_map,
      List.getElem?_set_ne (fun h => hne h.symm)]
  · intro inp e he
    rw [guardedProcessUpdate, he]

/-- Witness for C8: a two-series cycle where the first series' store write
faults; the second series' result is unchanged and the first series' error is
returned as a logged result. -/
theorem claim_C8_witness :
    (runCycle [⟨false, false, false, [], [⟨ParseDT.ok 0, ParseVal.num 1⟩]⟩,
        ⟨false, false, false, [], [⟨ParseDT.ok 2, ParseVal.num 3⟩]⟩]).length = 2 ∧
      (∀ k : Nat,
        (runCycle [⟨false, false, false, [], [⟨ParseDT.ok 0, ParseVal.num 1⟩]⟩,
          ⟨false, false, false, [], [⟨ParseDT.ok 2, ParseVal.num 3⟩]⟩])[k]? =
        (([⟨false, false, false, [], [⟨ParseDT.ok 0, ParseVal.num 1⟩]⟩,
          ⟨false, false, false, [], [⟨ParseDT.ok 2, ParseVal.num 3⟩]⟩] :
            List SeriesInput)[k]?).map guardedProcessUpdate) ∧
      (runCycle ([⟨false, false, false, [], [⟨ParseDT.ok 0, ParseVal.num 1⟩]⟩,
          ⟨false, false, false, [], [⟨ParseDT.ok 2, ParseVal.num 3⟩]⟩].set 0
            ⟨false, false, true, [], [⟨ParseDT.ok 0, ParseVal.num 1⟩]⟩))[1]? =
        (runCycle [⟨false, false, false, [], [⟨ParseDT.ok 0, ParseVal.num 1⟩]⟩,
          ⟨false, false, false, [], [⟨ParseDT.ok 2, ParseVal.num 3⟩]⟩])[1]? ∧
      (∀ inp : SeriesInput, ∀ e, processBody inp = Except.error e →
        guardedProcessUpdate inp = Sum.inr e) :=
  claim_C8 [⟨false, false, false, [], [⟨ParseDT.ok 0, ParseVal.num 1⟩]⟩,
      ⟨false, false, false, [], [⟨ParseDT.ok 2, ParseVal.num 3⟩]⟩] 0 1
    ⟨false, false, true, [], [⟨ParseDT.ok 0, ParseVal.num 1⟩]⟩
    (by decide) (by decide)

/-- Claim C9 (implicit): every point the importer appends to a commit batch
has its `state` field equal to its `sum` field, both carrying the running
cumulative total after adding that measurement's value — the batch paired
with its committed per-measurement values is exactly the running-total scan
of the checkpoint's sum, duplicated into both fields. -/
theorem claim_C9 (lastPoints : List StoredPoint) (ms : List RawMeasurement) :
    (statsOf (asyncProcessUpdate lastPoints ms)).map (fun p => (p.state, p.sum)) =
      (scanSums (deriveCheckpoint lastPoints).runningSum
        (committedVals (deriveCheckpoint lastPoints).lastStart (sortedInput ms))).map
        (fun x => (x, x)) := by
  by_cases hms : ms.isEmpty = true
  · obtain rfl : ms = [] := List.isEmpty_iff.mp hms
    rw [asyncProcessUpdate]
    simp [statsOf, sortedInput, parseMeasurements, sortMeasurements, committedVals, scanSums]
  · rw [asyncProcessUpdate, if_neg hms, statsOf]
    exact aggregateLoop_scan (deriveCheckpoint lastPoints).lastStart
      (deriveCheckpoint lastPoints).runningSum (sortedInput ms)

/-- Claim C10 (implicit): when login fails, the coordinator's update performs
no account fetches and returns the previously held data dictionary unchanged
(the empty dictionary on the first cycle), rather than raising or clearing
the stored data. -/
theorem claim_C10 (api : ApiModel) (prevData : List (String × AccountInfo))
    (h : api.loginOk = false) :
    asyncUpdateData api prevData = (prevData, []) := by
  rw [asyncUpdateData, if_neg (by rw [h]; exact Bool.false_ne_true)]

/-- Witness for C10 at a concrete failing-login API and a concrete previously
held dictionary. -/
theorem claim_C10_witness :
    asyncUpdateData ⟨false, ["A1"], fun _ => ⟨true, []⟩, fun _ _ => []⟩
        [("A1", ⟨true, [⟨ParseDT.ok 0, ParseVal.num 1⟩]⟩)] =
      ([("A1", ⟨true, [⟨ParseDT.ok 0, ParseVal.num 1⟩]⟩)], []) :=
  claim_C10 ⟨false, ["A1"], fun _ => ⟨true, []⟩, fun _ _ => []⟩
    [("A1", ⟨true, [⟨ParseDT.ok 0, ParseVal.num 1⟩]⟩)] rfl

end OctopusSpain
